import Mathlib

/-!
Shallow embedding of the nexus (early Mesos) master/slave core:
  * `third_party/libprocess/pid.hpp` — the `UPID` value type and its
    comparison operators;
  * `src/slave.hpp` — the slave-side `Framework` record with its
    `addTask` / `removeTask` / `lookupTask` operations, the
    `SlaveLeaderListener::newLeaderElected` callback, and the
    frameworks/executors maps of the `Slave` process;
  * `src/master_main.cpp` — the master binary's option-processing loop
    and exit behaviour.

Types that the excerpt only references (`Resources` from `resources.hpp`,
the identifier typedefs from `messages.hpp`, the slave's message-handler
bodies from `slave.cpp`) are modelled from the specification, and each
such definition says so in its doc comment.
-/

namespace NexusProof

/-! ## UPID (`third_party/libprocess/pid.hpp`) -/

/-- The `UPID` struct of `pid.hpp`: an identifier string, a 32-bit IPv4
address and a 16-bit port.  Only equality and ordering of the fields
matter here, so the machine integers are carried as `Nat`. -/
structure UPID where
  id : String
  ip : Nat
  port : Nat
deriving DecidableEq

/-- Embedding of `UPID::operator<` from `pid.hpp` (lines 60–72).  The C++ guard
`this != &that` only short-circuits physical self-comparison; when the
two operands are the same object the fall-through `return false` agrees
with the field comparison (all fields equal, so `id < id` is false),
hence the value-level function below is the exact comparison computed. -/
def UPID.ltb (a b : UPID) : Bool :=
  if a.ip = b.ip ∧ a.port = b.port then decide (a.id < b.id)
  else if a.ip = b.ip ∧ a.port ≠ b.port then decide (a.port < b.port)
  else decide (a.ip < b.ip)

/-- Embedding of `UPID::operator==` from `pid.hpp` (lines 74–88): fieldwise equality
(the `this == &that` branch returns `true`, which fieldwise equality
also gives). -/
def UPID.eqb (a b : UPID) : Bool :=
  a.id == b.id && a.ip == b.ip && a.port == b.port

/-- Embedding of `UPID::operator!=` from `pid.hpp`: the negation of `operator==`. -/
def UPID.neb (a b : UPID) : Bool :=
  !(UPID.eqb a b)

/-! ## Slave leader listener (`slave.hpp`, `SlaveLeaderListener`) -/

/-- The client-visible state touched by
`SlaveLeaderListener::newLeaderElected`: the parent slave's `zkserver`
field and the stream of `LE2S_NEWLEADER` messages sent to the parent
process (each carrying the new master's pid string). -/
structure ListenerState where
  zkserver : String
  sent : List String
deriving DecidableEq

/-- Embedding of `SlaveLeaderListener::newLeaderElected(zkId, pidStr)` from `slave.hpp`
(lines 201–211): if the ephemeral id `zkId` is non-empty, store `pidStr`
in the parent's `zkserver` and send an `LE2S_NEWLEADER` message carrying
`pidStr` to the parent process; otherwise do nothing. -/
def newLeaderElected (s : ListenerState) (zkId pidStr : String) : ListenerState :=
  if zkId ≠ "" then
    { zkserver := pidStr, sent := s.sent ++ [pidStr] }
  else
    s

/-! ## Resources and identifiers (modelled from the spec) -/

/-- Modelled from the spec: `resources.hpp` is not part of the excerpt.
Per §3, `Resources` is "a mapping from resource-kind (string) to
nonnegative scalar" with pointwise `+` and partial `−`.  It is embedded
as a total function from kind to `Int`; subtraction is exact pointwise
integer subtraction (the partiality — "must not go negative" — is a
proof obligation on callers, and the slave's `Framework` only ever
subtracts resources it previously added). -/
def Resources := String → Int

/-- Pointwise `Resources::operator+=` (spec §3). -/
def Resources.add (a b : Resources) : Resources :=
  fun k => a k + b k

/-- Pointwise `Resources::operator-=` (spec §3). -/
def Resources.sub (a b : Resources) : Resources :=
  fun k => a k - b k

/-- The default-constructed (empty) resource vector: every kind zero. -/
def Resources.zero : Resources :=
  fun _ => 0

/-- Modelled from the spec: the identifier typedefs live in the missing
`messages.hpp`; §3 says identifiers are opaque strings, and the slave
code only compares them for equality. -/
abbrev TaskID := String

/-- Modelled from the spec, like `TaskID`. -/
abbrev FrameworkID := String

/-- The `TaskState` enum referenced by `slave.hpp`; spec §3 lists the
states.  `addTask` stores `TASK_STARTING` in a new task. -/
inductive TaskState where
  | TASK_STARTING
  | TASK_RUNNING
  | TASK_FINISHED
  | TASK_FAILED
  | TASK_KILLED
  | TASK_LOST
deriving DecidableEq

/-! ## Slave-side `Framework` (`slave.hpp`, lines 61–161) -/

/-- Embedding of `TaskDescription` from `slave.hpp` (lines 61–71): a task queued while
its executor is still starting.  `params` is an opaque `Params` blob
(type not in the excerpt), carried as a list of string pairs. -/
structure TaskDescription where
  tid : TaskID
  name : String
  args : String
  params : List (String × String)

/-- Embedding of `Task` from `slave.hpp` (lines 75–86).  The constructor only sets
`id` and `resources`; `addTask` fills `frameworkId`, `state` and
`name`, and `message` starts default-constructed (empty). -/
structure Task where
  id : TaskID
  frameworkId : FrameworkID
  resources : Resources
  state : TaskState
  name : String
  message : String

/-- Embedding of `Framework` from `slave.hpp` (lines 90–161).  The
`unordered_map<TaskID, Task*> tasks` is embedded as an association list
(its operations below preserve key uniqueness, which the theorems carry
as a hypothesis where needed). -/
structure Framework where
  id : FrameworkID
  name : String
  user : String
  executorInfo : String
  queuedTasks : List TaskDescription
  tasks : List (TaskID × Task)
  resources : Resources
  executorStatus : String

/-- The `Framework` constructor (lines 104–106): sets `id`, `name`,
`user`, `executorInfo`; the containers start empty and `resources`
default-constructs to the empty vector. -/
def Framework.init (id name user executorInfo : String) : Framework :=
  { id := id, name := name, user := user, executorInfo := executorInfo
    queuedTasks := [], tasks := [], resources := Resources.zero
    executorStatus := "" }

/-- Embedding of `Framework::lookupTask` (lines 116–123): `tasks.find(tid)`,
returning the task or `NULL`. -/
def Framework.lookupTask (fw : Framework) (tid : TaskID) : Option Task :=
  fw.tasks.lookup tid

/-- Embedding of `Framework::addTask` (lines 125–139).  A duplicate `tid` hits
`LOG(FATAL)`, which aborts the slave process; that abort is embedded as
`Except.error` carrying the fatal diagnostic.  Otherwise a new task in
state `TASK_STARTING` is inserted and its resources are added to the
framework's total. -/
def Framework.addTask (fw : Framework) (tid : TaskID) (name : String)
    (res : Resources) : Except String (Framework × Task) :=
  if (fw.tasks.lookup tid).isSome then
    Except.error ("Task ID " ++ tid ++ "already exists in framework " ++ fw.id)
  else
    let task : Task :=
      { id := tid, frameworkId := fw.id, resources := res
        state := TaskState.TASK_STARTING, name := name, message := "" }
    Except.ok
      ({ fw with tasks := (tid, task) :: fw.tasks
                 resources := fw.resources.add res },
       task)

/-- The first loop of `Framework::removeTask` (lines 144–151): erase the
first queued `TaskDescription` whose `tid` matches (the `break` stops
after one hit). -/
def removeFirstQueued : List TaskDescription → TaskID → List TaskDescription
  | [], _ => []
  | d :: ds, tid => if d.tid = tid then ds else d :: removeFirstQueued ds tid

/-- Embedding of `Framework::removeTask` (lines 141–160): drop the first matching
queued description, then, if `tid` is in the task map, subtract that
task's resources and erase the map entry. -/
def Framework.removeTask (fw : Framework) (tid : TaskID) : Framework :=
  let fw1 := { fw with queuedTasks := removeFirstQueued fw.queuedTasks tid }
  match fw1.tasks.lookup tid with
  | some task =>
      { fw1 with tasks := fw1.tasks.eraseP (fun p => p.1 == tid)
                 resources := fw1.resources.sub task.resources }
  | none => fw1

/-- One slave-side framework operation, for stating properties of
operation sequences. -/
inductive FwOp where
  | add (tid : TaskID) (name : String) (res : Resources)
  | remove (tid : TaskID)

/-- Run a sequence of `addTask`/`removeTask` operations from a given
framework; a fatal abort in `addTask` aborts the whole run. -/
def runFwOps : Framework → List FwOp → Except String Framework
  | fw, [] => Except.ok fw
  | fw, FwOp.add tid name res :: rest =>
      match fw.addTask tid name res with
      | Except.ok (fw', _) => runFwOps fw' rest
      | Except.error e => Except.error e
  | fw, FwOp.remove tid :: rest => runFwOps (fw.removeTask tid) rest

/-- Componentwise sum of the resources of the tasks in a task map. -/
def taskResSum : List (TaskID × Task) → Resources
  | [] => Resources.zero
  | (_, t) :: rest => (taskResSum rest).add t.resources

/-! ## Slave frameworks/executors maps (`slave.hpp`, lines 174–190) -/

/-- The key sets of the `Slave` process's two maps
(`FrameworkMap frameworks` and `ExecutorMap executors`, `slave.hpp`
lines 187–188), which is all the stated invariant is about. -/
structure SlaveMaps where
  frameworks : List FrameworkID
  executors : List FrameworkID

/-- The slave starts with no frameworks and no executors. -/
def SlaveMaps.init : SlaveMaps :=
  { frameworks := [], executors := [] }

/-- Modelled from the spec: the bodies of the slave's message handlers
live in `slave.cpp`, which is not in the excerpt; `slave.hpp` only
declares them (`getFramework`, `getExecutor`, `removeExecutor`,
`killFramework`) together with the comment "Invariant: framework will
exist if executor exists".  Per spec §4.3, the operations that touch
the two maps are: RUN_TASK, which creates the framework record if
missing and starts an executor for it; `executorExited`/
`removeExecutor`, which drop the executor record but keep the framework
record "until the master says so"; and `killFramework`, which removes
the framework including its executor. -/
inductive SlaveOp where
  | runTask (fid : FrameworkID)
  | executorExited (fid : FrameworkID)
  | removeExecutor (fid : FrameworkID)
  | killFramework (fid : FrameworkID)

/-- Modelled from the spec (see `SlaveOp`): the effect of each slave
operation on the two key sets. -/
def SlaveMaps.step (s : SlaveMaps) : SlaveOp → SlaveMaps
  | SlaveOp.runTask fid =>
      { frameworks := if fid ∈ s.frameworks then s.frameworks
                      else fid :: s.frameworks
        executors := if fid ∈ s.executors then s.executors
                     else fid :: s.executors }
  | SlaveOp.executorExited fid =>
      { s with executors := s.executors.filter (fun f => f ≠ fid) }
  | SlaveOp.removeExecutor fid =>
      { s with executors := s.executors.filter (fun f => f ≠ fid) }
  | SlaveOp.killFramework fid =>
      { frameworks := s.frameworks.filter (fun f => f ≠ fid)
        executors := s.executors.filter (fun f => f ≠ fid) }

/-- Run a sequence of slave operations from a given state. -/
def SlaveMaps.run (s : SlaveMaps) : List SlaveOp → SlaveMaps
  | [] => s
  | op :: rest => (s.step op).run rest

/-! ## Master binary option loop (`master_main.cpp`) -/

/-- The configuration assembled by `main` in `master_main.cpp`
(lines 33–36): defaults `isFT = false`, `zkserver = ""`,
`quiet = false`, `allocator = "simple"`; `port` records the
`LIBPROCESS_PORT` environment setting. -/
structure MasterConfig where
  allocator : String
  port : Option String
  isFT : Bool
  zkserver : String
  quiet : Bool
deriving DecidableEq

/-- The defaults of `main` (`master_main.cpp` lines 33–36). -/
def MasterConfig.init : MasterConfig :=
  { allocator := "simple", port := none, isFT := false, zkserver := ""
    quiet := false }

/-- One result of the `getopt_long` loop (`master_main.cpp` line 40).
`getopt_long` itself is a platform library (the spec's §1 places CLI
flag parsing out of scope), so the command line is represented by the
stream of results it hands to the `switch`: `'a'`/`'p'`/`'f'` with
their required argument, `'q'`, or `'?'` for an unrecognized or
malformed option. -/
inductive OptResult where
  | a (optarg : String)
  | p (optarg : String)
  | f (optarg : String)
  | q
  | unrecognized
deriving DecidableEq

/-- The `while`/`switch` loop of `main` (`master_main.cpp` lines
40–62): each recognized option updates the configuration; `'?'` makes
`main` call `exit(1)`, embedded as `none`. -/
def processOpts : List OptResult → MasterConfig → Option MasterConfig
  | [], cfg => some cfg
  | OptResult.a v :: rest, cfg => processOpts rest { cfg with allocator := v }
  | OptResult.p v :: rest, cfg => processOpts rest { cfg with port := some v }
  | OptResult.f v :: rest, cfg =>
      processOpts rest { cfg with isFT := true, zkserver := v }
  | OptResult.q :: rest, cfg => processOpts rest { cfg with quiet := true }
  | OptResult.unrecognized :: _, _ => none

/-- The exit code of `main` (`master_main.cpp`): `--help` as the sole
argument exits 1 before option processing; an option-parsing error
exits 1; otherwise the master is spawned, waited on, and `main`
returns 0.  `help` is whether `argc == 2 && argv[1] == "--help"`. -/
def mainExit (help : Bool) (opts : List OptResult) : Nat :=
  if help then 1
  else
    match processOpts opts MasterConfig.init with
    | none => 1
    | some _ => 0

/-- The arguments `main` passes to the `Master` constructor on the
non-exiting path (`master_main.cpp` line 74): `(allocator, isFT,
zkserver)`. -/
def masterCtorArgs (opts : List OptResult) : Option (String × Bool × String) :=
  (processOpts opts MasterConfig.init).map fun cfg =>
    (cfg.allocator, cfg.isFT, cfg.zkserver)

/-- Whether `main` enables INFO-level logging to stderr
(`master_main.cpp` lines 64–65: `if (!quiet) SetStderrLogging(INFO)`). -/
def stderrInfoLogging (cfg : MasterConfig) : Bool :=
  !cfg.quiet

/-- The locator carried by the last `--fault-tolerant` option of the
stream, if any: the spec-side description of the fault-tolerant
configuration ("locator of the election service; if absent, a
single-master local deployment"). -/
def lastFT : List OptResult → Option String
  | [] => none
  | opt :: rest =>
      match lastFT rest with
      | some v => some v
      | none =>
          match opt with
          | OptResult.f v => some v
          | _ => none

/-! ## Auxiliary definitions and concrete fixtures -/

/-- The key list of a task map. -/
def taskKeys (l : List (TaskID × Task)) : List TaskID :=
  l.map Prod.fst

/-- The invariant carried through framework operation sequences: the
task map has unique keys (as an `unordered_map` does), and the
framework's `resources` field is the componentwise sum of its tasks'
resources. -/
def FwInv (fw : Framework) : Prop :=
  (taskKeys fw.tasks).Nodup ∧ ∀ k, fw.resources k = taskResSum fw.tasks k

/-- A concrete framework holding one task `t1`, obtained by a
successful `addTask` on a fresh framework. -/
def fwDup : Framework :=
  match (Framework.init "f1" "fw" "user" "info").addTask "t1" "task" Resources.zero with
  | Except.ok (fw, _) => fw
  | Except.error _ => Framework.init "f1" "fw" "user" "info"

/-- A concrete running task for the fixtures below. -/
def taskOne : Task :=
  { id := "t1", frameworkId := "f1", resources := fun _ => 2
    state := TaskState.TASK_RUNNING, name := "one", message := "" }

/-- A second concrete task for the fixtures below. -/
def taskTwo : Task :=
  { id := "t2", frameworkId := "f1", resources := fun _ => 3
    state := TaskState.TASK_STARTING, name := "two", message := "" }

/-- A concrete framework with two mapped tasks and two queued
descriptions. -/
def fwTwo : Framework :=
  { Framework.init "f1" "fw" "user" "info" with
    tasks := [("t1", taskOne), ("t2", taskTwo)]
    resources := (Resources.zero.add taskTwo.resources).add taskOne.resources
    queuedTasks := [{ tid := "t3", name := "q3", args := "", params := [] },
                    { tid := "t1", name := "q1", args := "", params := [] }] }

/-- A concrete operation sequence: two adds and a remove. -/
def opsW : List FwOp :=
  [FwOp.add "t1" "one" (fun _ => 2),
   FwOp.add "t2" "two" (fun _ => 3),
   FwOp.remove "t1"]

/-- The framework reached by running `opsW` from a fresh framework. -/
def fwW : Framework :=
  match runFwOps (Framework.init "f1" "fw" "user" "info") opsW with
  | Except.ok fw => fw
  | Except.error _ => Framework.init "f1" "fw" "user" "info"

/-! ## Theorems: leader listener (claims C2, C5) -/

/-- C2 counterexample: the listener does not compare epochs.  After a
first event with ephemeral id `e1`, a second event with the very same
(hence non-greater) ephemeral id `e1` still changes the stored master
locator and sends a new-leader message, contradicting the claim that a
non-greater epoch causes no state change and no message. -/
theorem newLeaderElected_repeats_epoch :
    newLeaderElected (newLeaderElected { zkserver := "", sent := [] } "e1" "m1")
        "e1" "m2" =
      { zkserver := "m2", sent := ["m1", "m2"] } := by
  rfl

/-- C2 (amended): the slave's leader listener acts on every election
event whose ephemeral id is non-empty — it stores the new master
locator and sends a new-leader message to the slave process —
regardless of how that id compares with previously observed ones; the
listener keeps no record of a last epoch. -/
theorem newLeaderElected_nonempty_acts (s : ListenerState) (zkId pidStr : String)
    (h : zkId ≠ "") :
    newLeaderElected s zkId pidStr =
      { zkserver := pidStr, sent := s.sent ++ [pidStr] } := by
  simp [newLeaderElected, h]

/-- Witness for `newLeaderElected_nonempty_acts` at a concrete event. -/
theorem newLeaderElected_nonempty_acts_witness :
    newLeaderElected { zkserver := "old", sent := [] } "e1" "m1" =
      { zkserver := "m1", sent := ["m1"] } :=
  newLeaderElected_nonempty_acts { zkserver := "old", sent := [] } "e1" "m1"
    (by decide)

/-- C5: an election event whose ephemeral id is the empty string ("no
leader known") performs no client-visible action: the stored master
locator is unchanged and no message is sent to the slave process. -/
theorem newLeaderElected_empty_noop (s : ListenerState) (pidStr : String) :
    newLeaderElected s "" pidStr = s := by
  simp [newLeaderElected]

/-! ## Theorems: master binary options (claims C4, C6, C7) -/

/-- Option processing succeeds exactly when the stream has no
unrecognized option. -/
theorem processOpts_isSome_iff (opts : List OptResult) (cfg : MasterConfig) :
    (processOpts opts cfg).isSome ↔ OptResult.unrecognized ∉ opts := by
  induction opts generalizing cfg with
  | nil => simp [processOpts]
  | cons o rest ih => cases o <;> simp [processOpts, ih]

/-- C4: for every command line (every `--help` flag and `getopt` result
stream), the master binary exits 1 on a configuration error (an
unrecognized or malformed option) and exits 0 on the clean-shutdown
path (options processed, master spawned and waited on). -/
theorem mainExit_codes (help : Bool) (opts : List OptResult) :
    (OptResult.unrecognized ∈ opts → mainExit help opts = 1) ∧
    (help = false → OptResult.unrecognized ∉ opts → mainExit help opts = 0) := by
  constructor
  · intro hmem
    unfold mainExit
    cases help with
    | true => simp
    | false =>
        have hnone : processOpts opts MasterConfig.init = none := by
          have := (processOpts_isSome_iff opts MasterConfig.init).not
          simp only [not_not] at this
          have h2 := this.mpr hmem
          cases hval : processOpts opts MasterConfig.init with
          | none => rfl
          | some cfg => rw [hval] at h2; simp at h2
        simp [hnone]
  · intro hhelp hmem
    subst hhelp
    have hsome : (processOpts opts MasterConfig.init).isSome :=
      (processOpts_isSome_iff opts MasterConfig.init).mpr hmem
    unfold mainExit
    cases hval : processOpts opts MasterConfig.init with
    | none => rw [hval] at hsome; simp at hsome
    | some cfg => simp [hval]

/-- Witness for `mainExit_codes`: an unrecognized option exits 1, and a
well-formed command line exits 0. -/
theorem mainExit_codes_witness :
    mainExit false [OptResult.unrecognized] = 1 ∧
    mainExit false [OptResult.q] = 0 :=
  ⟨(mainExit_codes false [OptResult.unrecognized]).1 (by decide),
   (mainExit_codes false [OptResult.q]).2 rfl (by decide)⟩

/-- How option processing treats the fault-tolerant fields: the last
`-f`/`--fault-tolerant` locator wins, and without one the fields pass
through unchanged. -/
theorem processOpts_ft (opts : List OptResult) (cfg cfg2 : MasterConfig)
    (h : processOpts opts cfg = some cfg2) :
    match lastFT opts with
    | some v => cfg2.isFT = true ∧ cfg2.zkserver = v
    | none => cfg2.isFT = cfg.isFT ∧ cfg2.zkserver = cfg.zkserver := by
  induction opts generalizing cfg with
  | nil =>
      simp only [processOpts, Option.some.injEq] at h
      subst h
      simp [lastFT]
  | cons o rest ih =>
      cases o with
      | a v =>
          have h2 := ih _ h
          simp only [lastFT]
          cases hl : lastFT rest with
          | some w => rw [hl] at h2; exact h2
          | none => rw [hl] at h2; simpa using h2
      | p v =>
          have h2 := ih _ h
          simp only [lastFT]
          cases hl : lastFT rest with
          | some w => rw [hl] at h2; exact h2
          | none => rw [hl] at h2; simpa using h2
      | f v =>
          have h2 := ih _ h
          simp only [lastFT]
          cases hl : lastFT rest with
          | some w => rw [hl] at h2; exact h2
          | none => rw [hl] at h2; simpa using h2
      | q =>
          have h2 := ih _ h
          simp only [lastFT]
          cases hl : lastFT rest with
          | some w => rw [hl] at h2; exact h2
          | none => rw [hl] at h2; simpa using h2
      | unrecognized => simp [processOpts] at h

/-- A fault-tolerant option occurs in the stream iff `lastFT` finds
one. -/
theorem lastFT_isSome_iff (opts : List OptResult) :
    (lastFT opts).isSome ↔ ∃ v, OptResult.f v ∈ opts := by
  induction opts with
  | nil => simp [lastFT]
  | cons o rest ih =>
      cases hl : lastFT rest with
      | some w =>
          simp only [lastFT, hl]
          constructor
          · intro _
            obtain ⟨v, hv⟩ := ih.mp (by rw [hl]; exact rfl)
            exact ⟨v, List.mem_cons_of_mem _ hv⟩
          · intro _; rfl
      | none =>
          cases o <;> simp_all [lastFT]

/-- C6: the master runs in fault-tolerant mode iff a
`-f`/`--fault-tolerant` option was supplied; when supplied, the last
such option's locator argument reaches the `Master` constructor
unchanged, and when absent the master is constructed with `isFT =
false` and an empty locator (a single-master local deployment). -/
theorem masterCtor_fault_tolerant (opts : List OptResult)
    (alloc : String) (ft : Bool) (zk : String)
    (h : masterCtorArgs opts = some (alloc, ft, zk)) :
    (ft = true ↔ ∃ v, OptResult.f v ∈ opts) ∧
    (∀ v, lastFT opts = some v → zk = v) ∧
    (lastFT opts = none → ft = false ∧ zk = "") := by
  unfold masterCtorArgs at h
  cases hval : processOpts opts MasterConfig.init with
  | none => rw [hval] at h; simp at h
  | some cfg =>
      rw [hval] at h
      simp only [Option.map_some', Option.some.injEq, Prod.mk.injEq] at h
      obtain ⟨ha, hf, hz⟩ := h
      subst ha hf hz
      have hft := processOpts_ft opts MasterConfig.init cfg hval
      refine ⟨?_, ?_, ?_⟩
      · constructor
        · intro htrue
          rw [← lastFT_isSome_iff]
          cases hl : lastFT opts with
          | some w => rfl
          | none =>
              rw [hl] at hft
              simp only [MasterConfig.init] at hft
              rw [htrue] at hft
              simp at hft
        · intro hex
          have hs := (lastFT_isSome_iff opts).mpr hex
          cases hl : lastFT opts with
          | some w => rw [hl] at hft; exact hft.1
          | none => rw [hl] at hs; simp at hs
      · intro v hv
        rw [hv] at hft
        exact hft.2
      · intro hnone
        rw [hnone] at hft
        simpa [MasterConfig.init] using hft

/-- Witness for `masterCtor_fault_tolerant` at a concrete command
line supplying a locator. -/
theorem masterCtor_fault_tolerant_witness :
    (true = true ↔ ∃ v, OptResult.f v ∈ [OptResult.f "zk:2181"]) ∧
    (∀ v, lastFT [OptResult.f "zk:2181"] = some v → "zk:2181" = v) ∧
    (lastFT [OptResult.f "zk:2181"] = none → true = false ∧ "zk:2181" = "") :=
  masterCtor_fault_tolerant [OptResult.f "zk:2181"] "simple" true "zk:2181" (by rfl)

/-- How option processing treats the quiet flag: it is set iff it was
already set or a `-q`/`--quiet` option occurs. -/
theorem processOpts_quiet (opts : List OptResult) (cfg cfg2 : MasterConfig)
    (h : processOpts opts cfg = some cfg2) :
    (cfg2.quiet = true ↔ (cfg.quiet = true ∨ OptResult.q ∈ opts)) := by
  induction opts generalizing cfg with
  | nil =>
      simp only [processOpts, Option.some.injEq] at h
      subst h
      simp
  | cons o rest ih =>
      cases o with
      | a v => have h2 := ih _ h; simpa using h2
      | p v => have h2 := ih _ h; simpa using h2
      | f v => have h2 := ih _ h; simpa using h2
      | q =>
          have h2 := ih _ h
          simp only [List.mem_cons]
          simp at h2
          simp [h2]
      | unrecognized => simp [processOpts] at h

/-- C7: for every command line the master processes successfully,
INFO-level logging to stderr is enabled iff no `-q`/`--quiet` option
was supplied. -/
theorem quiet_controls_info_logging (opts : List OptResult) (cfg : MasterConfig)
    (h : processOpts opts MasterConfig.init = some cfg) :
    (stderrInfoLogging cfg = true ↔ OptResult.q ∉ opts) := by
  have hq := processOpts_quiet opts MasterConfig.init cfg h
  simp only [MasterConfig.init] at hq
  simp only [stderrInfoLogging, Bool.not_eq_true']
  constructor
  · intro hfalse hmem
    have := hq.mpr (Or.inr hmem)
    rw [hfalse] at this
    exact Bool.false_ne_true this
  · intro hmem
    cases hval : cfg.quiet with
    | false => rfl
    | true =>
        have := hq.mp hval
        rcases this with hinit | hin
        · simp at hinit
        · exact absurd hin hmem

/-- Witness for `quiet_controls_info_logging` at a concrete quiet
command line. -/
theorem quiet_controls_info_logging_witness :
    (stderrInfoLogging { MasterConfig.init with quiet := true } = true ↔
      OptResult.q ∉ [OptResult.q]) :=
  quiet_controls_info_logging [OptResult.q]
    { MasterConfig.init with quiet := true } (by rfl)

/-! ## Theorems: slave executor/framework invariant (claim C3) -/

/-- One slave operation preserves "every executor key is a framework
key". -/
theorem slaveStep_preserves (s : SlaveMaps) (op : SlaveOp)
    (h : ∀ f ∈ s.executors, f ∈ s.frameworks) :
    ∀ f ∈ (s.step op).executors, f ∈ (s.step op).frameworks := by
  intro f hf
  cases op with
  | runTask fid =>
      simp only [SlaveMaps.step] at hf ⊢
      by_cases hfw : fid ∈ s.frameworks <;> by_cases hex : fid ∈ s.executors <;>
        simp [hfw, hex] at hf ⊢
      · exact h f hf
      · rcases hf with rfl | hf
        · exact hfw
        · exact h f hf
      · exact Or.inr (h f hf)
      · rcases hf with rfl | hf
        · exact Or.inl rfl
        · exact Or.inr (h f hf)
  | executorExited fid =>
      simp only [SlaveMaps.step, List.mem_filter] at hf ⊢
      exact h f hf.1
  | removeExecutor fid =>
      simp only [SlaveMaps.step, List.mem_filter] at hf ⊢
      exact h f hf.1
  | killFramework fid =>
      simp only [SlaveMaps.step, List.mem_filter] at hf ⊢
      exact ⟨h f hf.1, hf.2⟩

/-- Running any slave operation sequence preserves the invariant. -/
theorem slaveRun_preserves (ops : List SlaveOp) (s : SlaveMaps)
    (h : ∀ f ∈ s.executors, f ∈ s.frameworks) :
    ∀ f ∈ (s.run ops).executors, f ∈ (s.run ops).frameworks := by
  induction ops generalizing s with
  | nil => exact h
  | cons op rest ih =>
      exact ih (s.step op) (slaveStep_preserves s op h)

/-- C3: on every slave state reachable from the initial state by the
slave's operations, a framework id with an executor record also has a
framework record. -/
theorem executor_implies_framework (ops : List SlaveOp) (fid : FrameworkID)
    (h : fid ∈ (SlaveMaps.init.run ops).executors) :
    fid ∈ (SlaveMaps.init.run ops).frameworks :=
  slaveRun_preserves ops SlaveMaps.init (by intro f hf; simp [SlaveMaps.init] at hf)
    fid h

/-- Witness for `executor_implies_framework`: after a `RUN_TASK` for
framework `f1`, the executor record for `f1` exists and so does its
framework record. -/
theorem executor_implies_framework_witness :
    ("f1" : FrameworkID) ∈ (SlaveMaps.init.run [SlaveOp.runTask "f1"]).frameworks :=
  executor_implies_framework [SlaveOp.runTask "f1"] "f1" (by decide)

/-! ## Theorems: UPID ordering (claim C10) -/

/-- Characterization of `UPID::operator<`: it is the lexicographic
order on `(ip, port, id)`. -/
theorem UPID.ltb_iff (a b : UPID) :
    UPID.ltb a b = true ↔
      (a.ip < b.ip ∨ (a.ip = b.ip ∧ a.port < b.port) ∨
       (a.ip = b.ip ∧ a.port = b.port ∧ a.id < b.id)) := by
  unfold UPID.ltb
  by_cases h1 : a.ip = b.ip
  · by_cases h2 : a.port = b.port
    · simp [h1, h2, lt_irrefl]
    · simp [h1, h2, lt_irrefl]
  · simp [h1]

/-- Characterization of `UPID::operator==`: fieldwise equality. -/
theorem UPID.eqb_iff (a b : UPID) :
    UPID.eqb a b = true ↔ (a.id = b.id ∧ a.ip = b.ip ∧ a.port = b.port) := by
  simp [UPID.eqb, Bool.and_eq_true, and_assoc]

/-- C10: `UPID::operator<` is a strict total order consistent with
`operator==`: irreflexive, transitive, trichotomous (exactly one of
`a < b`, `b < a`, `a == b` holds), `operator==` is fieldwise equality,
and `operator!=` is its negation. -/
theorem upid_lt_strict_total_order (a b c : UPID) :
    UPID.ltb a a = false ∧
    (UPID.ltb a b = true → UPID.ltb b c = true → UPID.ltb a c = true) ∧
    (UPID.ltb a b = true ∨ UPID.ltb b a = true ∨ UPID.eqb a b = true) ∧
    (UPID.ltb a b = true → UPID.ltb b a = false ∧ UPID.eqb a b = false) ∧
    (UPID.eqb a b = true → UPID.ltb a b = false ∧ UPID.ltb b a = false) ∧
    (UPID.eqb a b = true ↔ (a.id = b.id ∧ a.ip = b.ip ∧ a.port = b.port)) ∧
    UPID.neb a b = !UPID.eqb a b := by
  refine ⟨?_, ?_, ?_, ?_, ?_, UPID.eqb_iff a b, rfl⟩
  · rw [Bool.eq_false_iff]
    intro hcon
    rcases (UPID.ltb_iff a a).mp hcon with h | ⟨_, h⟩ | ⟨_, _, h⟩ <;>
      exact lt_irrefl _ h
  · intro hab hbc
    rw [UPID.ltb_iff] at hab hbc ⊢
    rcases hab with h1 | ⟨e1, h1⟩ | ⟨e1, e1p, h1⟩ <;>
      rcases hbc with h2 | ⟨e2, h2⟩ | ⟨e2, e2p, h2⟩
    · exact Or.inl (lt_trans h1 h2)
    · exact Or.inl (e2 ▸ h1)
    · exact Or.inl (e2 ▸ h1)
    · exact Or.inl (e1 ▸ h2)
    · exact Or.inr (Or.inl ⟨e1.trans e2, lt_trans h1 h2⟩)
    · exact Or.inr (Or.inl ⟨e1.trans e2, e2p ▸ h1⟩)
    · exact Or.inl (e1 ▸ h2)
    · exact Or.inr (Or.inl ⟨e1.trans e2, e1p ▸ h2⟩)
    · exact Or.inr (Or.inr ⟨e1.trans e2, e1p.trans e2p, lt_trans h1 h2⟩)
  · rw [UPID.ltb_iff, UPID.ltb_iff, UPID.eqb_iff]
    rcases lt_trichotomy a.ip b.ip with hip | hip | hip
    · exact Or.inl (Or.inl hip)
    · rcases lt_trichotomy a.port b.port with hport | hport | hport
      · exact Or.inl (Or.inr (Or.inl ⟨hip, hport⟩))
      · rcases lt_trichotomy a.id b.id with hid | hid | hid
        · exact Or.inl (Or.inr (Or.inr ⟨hip, hport, hid⟩))
        · exact Or.inr (Or.inr ⟨hid, hip, hport⟩)
        · exact Or.inr (Or.inl (Or.inr (Or.inr ⟨hip.symm, hport.symm, hid⟩)))
      · exact Or.inr (Or.inl (Or.inr (Or.inl ⟨hip.symm, hport⟩)))
    · exact Or.inr (Or.inl (Or.inl hip))
  · intro hab
    rw [UPID.ltb_iff] at hab
    constructor
    · rw [Bool.eq_false_iff]
      intro hba
      rw [UPID.ltb_iff] at hba
      rcases hab with h1 | ⟨e1, h1⟩ | ⟨e1, e1p, h1⟩ <;>
        rcases hba with h2 | ⟨e2, h2⟩ | ⟨e2, e2p, h2⟩ <;>
        first
          | exact lt_irrefl _ (lt_trans h1 h2)
          | exact absurd e2 (ne_of_gt h1)
          | exact absurd e1 (ne_of_gt h2)
          | exact absurd e2p (ne_of_gt h1)
          | exact absurd e1p (ne_of_gt h2)
    · rw [Bool.eq_false_iff]
      intro heq
      rw [UPID.eqb_iff] at heq
      rcases hab with h1 | ⟨_, h1⟩ | ⟨_, _, h1⟩
      · exact absurd heq.2.1 (ne_of_lt h1)
      · exact absurd heq.2.2 (ne_of_lt h1)
      · exact absurd heq.1 (ne_of_lt h1)
  · intro heq
    rw [UPID.eqb_iff] at heq
    obtain ⟨hid, hip, hport⟩ := heq
    constructor <;>
      · rw [Bool.eq_false_iff]
        intro hlt
        rw [UPID.ltb_iff] at hlt
        rcases hlt with h | ⟨_, h⟩ | ⟨_, _, h⟩ <;>
          simp [hid, hip, hport] at h

/-- Witness for `upid_lt_strict_total_order`: transitivity applied at
three concrete UPIDs. -/
theorem upid_lt_strict_total_order_witness :
    UPID.ltb { id := "a", ip := 1, port := 2 } { id := "c", ip := 2, port := 1 } = true :=
  (upid_lt_strict_total_order { id := "a", ip := 1, port := 2 }
      { id := "b", ip := 1, port := 9 } { id := "c", ip := 2, port := 1 }).2.1
    (by decide) (by decide)

/-! ## Theorems: framework task map helpers -/

/-- A lookup miss is exactly absence from the key list. -/
theorem lookup_none_iff (l : List (TaskID × Task)) (tid : TaskID) :
    l.lookup tid = none ↔ tid ∉ taskKeys l := by
  induction l with
  | nil => simp [taskKeys]
  | cons p rest ih =>
      obtain ⟨k, t⟩ := p
      by_cases hk : tid = k
      · subst hk
        simp [List.lookup, taskKeys]
      · simp [List.lookup, beq_false_of_ne hk, taskKeys, hk] at ih ⊢
        exact ih

/-- Erasing the entry of `tid` from a map with unique keys makes `tid`
absent. -/
theorem lookup_eraseP_self (l : List (TaskID × Task)) (tid : TaskID)
    (hnd : (taskKeys l).Nodup) :
    (l.eraseP (fun p => p.1 == tid)).lookup tid = none := by
  induction l with
  | nil => simp
  | cons p rest ih =>
      obtain ⟨k, t⟩ := p
      simp only [taskKeys, List.map_cons, List.nodup_cons] at hnd
      by_cases hk : k = tid
      · subst hk
        simp only [List.eraseP_cons, beq_self_eq_true, cond_true]
        exact (lookup_none_iff rest k).mpr hnd.1
      · simp only [List.eraseP_cons, beq_false_of_ne hk, cond_false]
        rw [show (((k, t) :: rest.eraseP (fun p => p.1 == tid)).lookup tid) =
              (rest.eraseP (fun p => p.1 == tid)).lookup tid by
            simp [List.lookup, beq_false_of_ne (Ne.symm hk)]]
        exact ih hnd.2

/-- Erasing the entry of `tid` does not change lookups of other
keys. -/
theorem lookup_eraseP_other (l : List (TaskID × Task)) (tid tid2 : TaskID)
    (h : tid2 ≠ tid) :
    (l.eraseP (fun p => p.1 == tid)).lookup tid2 = l.lookup tid2 := by
  induction l with
  | nil => simp
  | cons p rest ih =>
      obtain ⟨k, t⟩ := p
      by_cases hk : k = tid
      · subst hk
        simp only [List.eraseP_cons, beq_self_eq_true, cond_true]
        simp [List.lookup, beq_false_of_ne h]
      · simp only [List.eraseP_cons, beq_false_of_ne hk, cond_false]
        by_cases hk2 : tid2 = k
        · subst hk2
          simp [List.lookup]
        · simp [List.lookup, beq_false_of_ne hk2]
          exact ih

/-- Erasing the entry of `tid` from a map with unique keys subtracts
exactly the resources stored under `tid`. -/
theorem taskResSum_eraseP (l : List (TaskID × Task)) (tid : TaskID) (v : Task)
    (hnd : (taskKeys l).Nodup) (hl : l.lookup tid = some v) (k : String) :
    taskResSum (l.eraseP (fun p => p.1 == tid)) k =
      taskResSum l k - v.resources k := by
  induction l with
  | nil => simp [List.lookup] at hl
  | cons p rest ih =>
      obtain ⟨k0, t0⟩ := p
      simp only [taskKeys, List.map_cons, List.nodup_cons] at hnd
      by_cases hk : k0 = tid
      · subst hk
        have ht0 : t0 = v := by simpa [List.lookup] using hl
        subst ht0
        simp only [List.eraseP_cons, beq_self_eq_true, cond_true,
          taskResSum, Resources.add]
        omega
      · have hl2 : rest.lookup tid = some v := by
          simpa [List.lookup, beq_false_of_ne (Ne.symm hk)] using hl
        simp only [List.eraseP_cons, beq_false_of_ne hk, cond_false,
          taskResSum, Resources.add]
        rw [ih hnd.2 hl2]
        omega

/-- Erasing preserves key uniqueness (keys of the erased map form a
sublist). -/
theorem taskKeys_eraseP_nodup (l : List (TaskID × Task))
    (p : TaskID × Task → Bool) (hnd : (taskKeys l).Nodup) :
    (taskKeys (l.eraseP p)).Nodup :=
  List.Nodup.sublist ((List.eraseP_sublist l).map Prod.fst) hnd

/-- If no queued description matches, the queue is unchanged. -/
theorem removeFirstQueued_no_match (q : List TaskDescription) (tid : TaskID)
    (h : ∀ d ∈ q, d.tid ≠ tid) : removeFirstQueued q tid = q := by
  induction q with
  | nil => rfl
  | cons d rest ih =>
      simp only [removeFirstQueued]
      rw [if_neg (h d (List.mem_cons_self d rest))]
      rw [ih (fun e he => h e (List.mem_cons_of_mem d he))]

/-- The first matching queued description, and only it, is removed. -/
theorem removeFirstQueued_first (l1 : List TaskDescription)
    (d : TaskDescription) (l2 : List TaskDescription) (tid : TaskID)
    (hd : d.tid = tid) (h1 : ∀ e ∈ l1, e.tid ≠ tid) :
    removeFirstQueued (l1 ++ d :: l2) tid = l1 ++ l2 := by
  induction l1 with
  | nil => simp [removeFirstQueued, hd]
  | cons e rest ih =>
      simp only [List.cons_append, removeFirstQueued, List.append_eq]
      rw [if_neg (h1 e (List.mem_cons_self e rest))]
      rw [ih (fun e2 he2 => h1 e2 (List.mem_cons_of_mem e he2))]

/-! ## Theorems: duplicate TaskID handling (claim C1) -/

/-- C1 counterexample: on the slave, a duplicate TaskID does abort the
process.  `fwDup` already holds task `t1`; adding `t1` again hits
`LOG(FATAL)` (embedded as `Except.error` with the fatal diagnostic)
instead of disconnecting the offender and continuing. -/
theorem addTask_duplicate_aborts :
    fwDup.addTask "t1" "task2" Resources.zero =
      Except.error "Task ID t1already exists in framework f1" := by
  rfl

/-- C1 (amended): when a task arrives whose TaskID already exists in
the framework's task map, `Framework::addTask` logs a fatal diagnostic
naming the task and framework and aborts the slave process (the master
is relied on never to launch two tasks with the same ID); no task is
added and the slave does not disconnect-and-continue. -/
theorem addTask_duplicate_fatal (fw : Framework) (tid : TaskID)
    (nm : String) (res : Resources)
    (h : (fw.lookupTask tid).isSome = true) :
    fw.addTask tid nm res =
      Except.error ("Task ID " ++ tid ++ "already exists in framework " ++ fw.id) := by
  unfold Framework.lookupTask at h
  unfold Framework.addTask
  simp [h]

/-- Witness for `addTask_duplicate_fatal` on the concrete framework
`fwDup`. -/
theorem addTask_duplicate_fatal_witness :
    fwDup.addTask "t1" "task2" Resources.zero =
      Except.error ("Task ID " ++ "t1" ++ "already exists in framework " ++ fwDup.id) :=
  addTask_duplicate_fatal fwDup "t1" "task2" Resources.zero (by rfl)

/-! ## Theorems: removeTask frame conditions (claim C9) -/

/-- Unfolding of `removeTask` when the task is in the map. -/
theorem removeTask_eq_some (fw : Framework) (tid : TaskID) (task : Task)
    (hval : fw.tasks.lookup tid = some task) :
    fw.removeTask tid =
      { fw with queuedTasks := removeFirstQueued fw.queuedTasks tid
                tasks := fw.tasks.eraseP (fun p => p.1 == tid)
                resources := fw.resources.sub task.resources } := by
  unfold Framework.removeTask
  simp only [hval]

/-- Unfolding of `removeTask` when the task is not in the map. -/
theorem removeTask_eq_none (fw : Framework) (tid : TaskID)
    (hval : fw.tasks.lookup tid = none) :
    fw.removeTask tid =
      { fw with queuedTasks := removeFirstQueued fw.queuedTasks tid } := by
  unfold Framework.removeTask
  simp only [hval]

/-- C9: after `removeTask(tid)` on a framework whose task map has
unique keys, `tid` is gone from the task map (`lookupTask` returns
`NULL`), lookups of every other TaskID are unchanged (so those tasks
keep their state and resources), the queue loses exactly the first
description with id `tid` (and nothing when none matches), and
removing an id absent from the task map leaves the task map and the
resources field unchanged. -/
theorem removeTask_frame (fw : Framework) (tid : TaskID)
    (hnd : (taskKeys fw.tasks).Nodup) :
    ((fw.removeTask tid).lookupTask tid = none) ∧
    (∀ tid2, tid2 ≠ tid →
      (fw.removeTask tid).lookupTask tid2 = fw.lookupTask tid2) ∧
    ((∀ d ∈ fw.queuedTasks, d.tid ≠ tid) →
      (fw.removeTask tid).queuedTasks = fw.queuedTasks) ∧
    (∀ l1 d l2, fw.queuedTasks = l1 ++ d :: l2 → d.tid = tid →
      (∀ e ∈ l1, e.tid ≠ tid) → (fw.removeTask tid).queuedTasks = l1 ++ l2) ∧
    (fw.lookupTask tid = none →
      (fw.removeTask tid).tasks = fw.tasks ∧
      ∀ k, (fw.removeTask tid).resources k = fw.resources k) := by
  cases hval : fw.tasks.lookup tid with
  | some task =>
      rw [removeTask_eq_some fw tid task hval]
      refine ⟨?_, ?_, ?_, ?_, ?_⟩
      · unfold Framework.lookupTask
        simpa using lookup_eraseP_self fw.tasks tid hnd
      · intro tid2 h2
        unfold Framework.lookupTask
        simpa using lookup_eraseP_other fw.tasks tid tid2 h2
      · intro hq
        simpa using removeFirstQueued_no_match fw.queuedTasks tid hq
      · intro l1 d l2 heq hd h1
        simp only
        rw [heq]
        exact removeFirstQueued_first l1 d l2 tid hd h1
      · intro hnone
        unfold Framework.lookupTask at hnone
        rw [hval] at hnone
        exact absurd hnone (by simp)
  | none =>
      rw [removeTask_eq_none fw tid hval]
      refine ⟨?_, ?_, ?_, ?_, ?_⟩
      · unfold Framework.lookupTask
        simpa using hval
      · intro tid2 _
        rfl
      · intro hq
        simpa using removeFirstQueued_no_match fw.queuedTasks tid hq
      · intro l1 d l2 heq hd h1
        simp only
        rw [heq]
        exact removeFirstQueued_first l1 d l2 tid hd h1
      · intro _
        exact ⟨rfl, fun k => rfl⟩

/-- Witness for `removeTask_frame` on the concrete two-task framework
`fwTwo`. -/
theorem removeTask_frame_witness :
    (fwTwo.removeTask "t1").lookupTask "t1" = none :=
  (removeTask_frame fwTwo "t1" (by decide)).1

/-! ## Theorems: resource accounting (claim C8) -/

/-- A successful `addTask` preserves the accounting invariant. -/
theorem addTask_inv (fw : Framework) (tid : TaskID) (nm : String)
    (res : Resources) (fw2 : Framework) (tk : Task)
    (hinv : FwInv fw) (h : fw.addTask tid nm res = Except.ok (fw2, tk)) :
    FwInv fw2 := by
  unfold Framework.addTask at h
  cases hval : fw.tasks.lookup tid with
  | some task =>
      rw [hval] at h
      simp at h
  | none =>
      rw [hval] at h
      simp only [Option.isSome_none, Bool.false_eq_true, if_false,
        Except.ok.injEq, Prod.mk.injEq] at h
      obtain ⟨hfw2, _⟩ := h
      subst hfw2
      constructor
      · simp only [taskKeys, List.map_cons]
        exact List.nodup_cons.mpr ⟨(lookup_none_iff fw.tasks tid).mp hval, hinv.1⟩
      · intro k
        simp only [taskResSum, Resources.add]
        rw [← hinv.2 k]

/-- `removeTask` preserves the accounting invariant. -/
theorem removeTask_inv (fw : Framework) (tid : TaskID) (hinv : FwInv fw) :
    FwInv (fw.removeTask tid) := by
  cases hval : fw.tasks.lookup tid with
  | some task =>
      rw [removeTask_eq_some fw tid task hval]
      constructor
      · exact taskKeys_eraseP_nodup fw.tasks _ hinv.1
      · intro k
        rw [taskResSum_eraseP fw.tasks tid task hinv.1 hval k]
        simp only [Resources.sub]
        rw [hinv.2 k]
  | none =>
      rw [removeTask_eq_none fw tid hval]
      exact hinv

/-- Running any operation sequence preserves the accounting
invariant. -/
theorem runFwOps_inv (ops : List FwOp) (fw fw2 : Framework)
    (hinv : FwInv fw) (h : runFwOps fw ops = Except.ok fw2) : FwInv fw2 := by
  induction ops generalizing fw with
  | nil =>
      simp only [runFwOps, Except.ok.injEq] at h
      subst h
      exact hinv
  | cons op rest ih =>
      cases op with
      | add tid nm res =>
          simp only [runFwOps] at h
          cases hadd : fw.addTask tid nm res with
          | ok pr =>
              rw [hadd] at h
              exact ih pr.1 (addTask_inv fw tid nm res pr.1 pr.2 hinv
                (by rw [hadd])) h
          | error e =>
              rw [hadd] at h
              simp at h
      | remove tid =>
          simp only [runFwOps] at h
          exact ih (fw.removeTask tid) (removeTask_inv fw tid hinv) h

/-- C8: for every sequence of `addTask`/`removeTask` operations run
from a freshly constructed framework (without hitting the fatal
duplicate path), the framework's `resources` field equals the
componentwise sum of the resources of the tasks currently in its task
map. -/
theorem framework_resource_conservation (ops : List FwOp)
    (id nm user info : String) (fw : Framework)
    (h : runFwOps (Framework.init id nm user info) ops = Except.ok fw) :
    ∀ k, fw.resources k = taskResSum fw.tasks k :=
  (runFwOps_inv ops (Framework.init id nm user info) fw
    ⟨by simp [Framework.init, taskKeys], fun k => rfl⟩ h).2

/-- Witness for `framework_resource_conservation`: the concrete
sequence `opsW` (two adds, one remove) reaches `fwW`, whose resources
equal its tasks' componentwise sum at the kind `cpus`. -/
theorem framework_resource_conservation_witness :
    fwW.resources "cpus" = taskResSum fwW.tasks "cpus" :=
  framework_resource_conservation opsW "f1" "fw" "user" "info" fwW (by rfl) "cpus"

end NexusProof
